import Mathlib

/-!
# Verification of the Basic Memory canvas creation adapter

Shallow embedding of `src/basic_memory/mcp/tools/canvas.py`: the `canvas`
tool resolves a project, normalizes the destination path, serializes the
JSON Canvas document with `json.dumps(canvas_data, indent=2)`, submits it
through a PUT-style resource write, parses the response body and renders a
summary string.  Python strings are modelled as Lean `String` (sequences of
unicode scalar values), Python ints as `Int`, Python `json` values as the
inductive `JVal`.  The serializer below reproduces `json.dumps` with
`indent=2` and `ensure_ascii=True` byte for byte (lowercase `\u` escapes,
surrogate pairs for astral characters, `": "` item separators); the parser
models `json.loads` on the fragment of JSON relevant here (strings,
integers, arrays, objects).  Effects (log lines and the remote write) are
collected in an explicit trace.
-/

namespace BasicMemory

/-- JSON values reachable in this adapter: strings, arbitrary-precision
integers, arrays, and objects as association lists in insertion order
(Python dicts preserve insertion order). -/
inductive JVal where
  | str (s : String)
  | int (i : Int)
  | arr (xs : List JVal)
  | obj (kvs : List (String × JVal))

/-- Hexadecimal digit characters, lowercase (code points `0`–`9` then
`a`–`f`), as Python's `'{0:04x}'.format` produces them; for `d < 10`
these are also the decimal digit characters. -/
def hexDig (d : Nat) : Char :=
  Char.ofNat (if d < 10 then 48 + d else 87 + d)

/-- Value of a hexadecimal digit character (both cases), as accepted by
Python's `json` `\uXXXX` escapes: code points `0`–`9`, `a`–`f`, `A`–`F`
by their numeric ranges. -/
def hexVal (c : Char) : Option Nat :=
  if 48 ≤ c.toNat ∧ c.toNat ≤ 57 then some (c.toNat - 48)
  else if 97 ≤ c.toNat ∧ c.toNat ≤ 102 then some (c.toNat - 87)
  else if 65 ≤ c.toNat ∧ c.toNat ≤ 70 then some (c.toNat - 55)
  else none

/-- Value of a decimal digit character, by its numeric range. -/
def digVal (c : Char) : Option Nat :=
  if 48 ≤ c.toNat ∧ c.toNat ≤ 57 then some (c.toNat - 48) else none

/-- Decimal digit characters of `n`, most significant first, with an
explicit fuel so the definition is structurally recursive (the kernel can
then evaluate it).  `natDigits` instantiates the fuel sufficiently. -/
def natDigitsF : Nat → Nat → List Char
  | 0, _ => []
  | fuel + 1, n => if n < 10 then [hexDig n] else natDigitsF fuel (n / 10) ++ [hexDig (n % 10)]

/-- Decimal digit characters of `n`, most significant first, no leading
zeros (`0` itself gives `"0"`), as Python's `repr` of a nonnegative int. -/
def natDigits (n : Nat) : List Char := natDigitsF (n + 1) n

/-- Python's serialization of an int: decimal digits, `'-'` prefix for
negative values. -/
def serInt (i : Int) : List Char :=
  if i < 0 then '-' :: natDigits i.natAbs else natDigits i.natAbs

/-- The six-character escape `\uXXXX` (lowercase hex) of a code unit. -/
def uEsc (n : Nat) : List Char :=
  ['\\', 'u', hexDig (n / 4096 % 16), hexDig (n / 256 % 16), hexDig (n / 16 % 16), hexDig (n % 16)]

/-- Python `json.dumps` (`ensure_ascii=True`) escaping of one character:
`"` and `\` get a backslash, the named control escapes are used for
backspace, form feed, newline, carriage return and tab, every other
control character and every non-ASCII character becomes `\uXXXX`, with a
surrogate pair for characters above `0xFFFF`. -/
def escChar (c : Char) : List Char :=
  if c = '"' then ['\\', '"']
  else if c = '\\' then ['\\', '\\']
  else if c = '\x08' then ['\\', 'b']
  else if c = '\x0c' then ['\\', 'f']
  else if c = '\n' then ['\\', 'n']
  else if c = '\r' then ['\\', 'r']
  else if c = '\t' then ['\\', 't']
  else if c.toNat < 0x20 then uEsc c.toNat
  else if c.toNat ≤ 0x7e then [c]
  else if c.toNat < 0x10000 then uEsc c.toNat
  else uEsc (0xd800 + (c.toNat - 0x10000) / 0x400) ++ uEsc (0xdc00 + (c.toNat - 0x10000) % 0x400)

/-- Escaping of a character sequence. -/
def escStr : List Char → List Char
  | [] => []
  | c :: cs => escChar c ++ escStr cs

/-- Python `json.dumps` of a string: quote, escaped content, quote. -/
def serStr (s : String) : List Char := '"' :: (escStr s.data ++ ['"'])

/-- JSON whitespace (RFC 8259, what Python's `json` skips). -/
def isWs (c : Char) : Bool := c = ' ' ∨ c = '\t' ∨ c = '\n' ∨ c = '\r'

/-- Drop leading JSON whitespace. -/
def skipWs : List Char → List Char
  | [] => []
  | c :: rest => if isWs c then skipWs rest else c :: rest

/-- Newline followed by the indentation of nesting level `lvl`, as
`json.dumps(.., indent=2)` lays out container items. -/
def nlInd (lvl : Nat) : List Char := '\n' :: List.replicate (2 * lvl) ' '

mutual

/-- `json.dumps(v, indent=2)` at nesting level `lvl`, as a character
list. -/
def serVal (lvl : Nat) : JVal → List Char
  | .str s => serStr s
  | .int i => serInt i
  | .arr xs => serArr lvl xs
  | .obj kvs => serObj lvl kvs

/-- Array layout of `json.dumps(.., indent=2)`: `[]` when empty, otherwise
each element on its own indented line. -/
def serArr (lvl : Nat) : List JVal → List Char
  | [] => ['[', ']']
  | x :: xs =>
    '[' :: (nlInd (lvl + 1) ++ (serVal (lvl + 1) x ++ (serArrTail (lvl + 1) xs ++ (nlInd lvl ++ [']']))))

/-- Second and later array elements, each preceded by `,` and a fresh
indented line. -/
def serArrTail (lvl : Nat) : List JVal → List Char
  | [] => []
  | x :: xs => ',' :: (nlInd lvl ++ (serVal lvl x ++ serArrTail lvl xs))

/-- Object layout of `json.dumps(.., indent=2)`: `\x7b\x7d` when empty,
otherwise each `"key": value` member on its own indented line. -/
def serObj (lvl : Nat) : List (String × JVal) → List Char
  | [] => ['{', '}']
  | kv :: kvs =>
    '{' :: (nlInd (lvl + 1) ++ (serStr kv.1 ++ (':' :: ' ' :: serVal (lvl + 1) kv.2 ++ (serObjTail (lvl + 1) kvs ++ (nlInd lvl ++ ['}'])))))

/-- Second and later object members. -/
def serObjTail (lvl : Nat) : List (String × JVal) → List Char
  | [] => []
  | kv :: kvs =>
    ',' :: (nlInd lvl ++ (serStr kv.1 ++ (':' :: ' ' :: serVal lvl kv.2 ++ serObjTail lvl kvs)))

end

mutual

/-- Structural size of a JSON value, used as a fuel bound for the parser. -/
def sizeJ : JVal → Nat
  | .str _ => 1
  | .int _ => 1
  | .arr xs => 1 + sizeL xs
  | .obj kvs => 1 + sizeO kvs

/-- Structural size of a list of JSON values. -/
def sizeL : List JVal → Nat
  | [] => 1
  | x :: xs => 1 + sizeJ x + sizeL xs

/-- Structural size of an association list of JSON members. -/
def sizeO : List (String × JVal) → Nat
  | [] => 1
  | kv :: kvs => 1 + sizeJ kv.2 + sizeO kvs

end

/-- `json.dumps(v, indent=2)`: the serialized document text. -/
def jsonDumps2 (v : JVal) : String := String.mk (serVal 0 v)

/-- Compact JSON serialization of a top-level string value, as the
transport's `json.dumps` produces for a string payload (for a string the
`indent`/separator settings are irrelevant). -/
def serStringPayload (s : String) : String := String.mk (serStr s)

/-- Four hexadecimal digits, returning their value and the remaining
input. -/
def parseHex4 : List Char → Option (Nat × List Char)
  | c1 :: c2 :: c3 :: c4 :: rest =>
    match hexVal c1, hexVal c2, hexVal c3, hexVal c4 with
    | some d1, some d2, some d3, some d4 => some (((d1 * 16 + d2) * 16 + d3) * 16 + d4, rest)
    | _, _, _, _ => none
  | _ => none

/-- Body of a JSON string after the opening quote, as `json.loads` reads
it: literal characters at or above `0x20`, backslash escapes including
`\uXXXX` with surrogate pairs, up to the closing quote.  Returns the
decoded characters and the input after the closing quote. -/
def parseStrBody : Nat → List Char → Option (List Char × List Char)
  | 0, _ => none
  | fuel + 1, l =>
    match l with
    | [] => none
    | c :: rest =>
      if c = '"' then some ([], rest)
      else if c = '\\' then
        match rest with
        | [] => none
        | e :: rest2 =>
          if e = '"' then (parseStrBody fuel rest2).map fun p => ('"' :: p.1, p.2)
          else if e = '\\' then (parseStrBody fuel rest2).map fun p => ('\\' :: p.1, p.2)
          else if e = '/' then (parseStrBody fuel rest2).map fun p => ('/' :: p.1, p.2)
          else if e = 'b' then (parseStrBody fuel rest2).map fun p => ('\x08' :: p.1, p.2)
          else if e = 'f' then (parseStrBody fuel rest2).map fun p => ('\x0c' :: p.1, p.2)
          else if e = 'n' then (parseStrBody fuel rest2).map fun p => ('\n' :: p.1, p.2)
          else if e = 'r' then (parseStrBody fuel rest2).map fun p => ('\r' :: p.1, p.2)
          else if e = 't' then (parseStrBody fuel rest2).map fun p => ('\t' :: p.1, p.2)
          else if e = 'u' then
            match parseHex4 rest2 with
            | none => none
            | some (n, rest3) =>
              if n < 0xd800 ∨ 0xdfff < n then
                (parseStrBody fuel rest3).map fun p => (Char.ofNat n :: p.1, p.2)
              else if n < 0xdc00 then
                match rest3 with
                | b1 :: b2 :: rest4 =>
                  if b1 = '\\' ∧ b2 = 'u' then
                    match parseHex4 rest4 with
                    | none => none
                    | some (m, rest5) =>
                      if 0xdc00 ≤ m ∧ m ≤ 0xdfff then
                        (parseStrBody fuel rest5).map fun p =>
                          (Char.ofNat (0x10000 + (n - 0xd800) * 0x400 + (m - 0xdc00)) :: p.1, p.2)
                      else none
                  else none
                | _ => none
              else none
          else none
      else if 0x20 ≤ c.toNat then (parseStrBody fuel rest).map fun p => (c :: p.1, p.2)
      else none

/-- Longest leading run of decimal digit characters. -/
def takeDigits : List Char → List Char × List Char
  | [] => ([], [])
  | c :: rest =>
    match digVal c with
    | some _ => ((c :: (takeDigits rest).1), (takeDigits rest).2)
    | none => ([], c :: rest)

/-- Numeric value of a digit-character run. -/
def digitsVal (ds : List Char) : Nat :=
  ds.foldl (fun a c => a * 10 + (digVal c).getD 0) 0

/-- A nonempty run of decimal digits, as a natural number. -/
def parseNatFrom (l : List Char) : Option (Nat × List Char) :=
  if (takeDigits l).1 = [] then none else some (digitsVal (takeDigits l).1, (takeDigits l).2)

/-- A JSON integer: optional `'-'`, then digits. -/
def parseIntFrom : List Char → Option (Int × List Char)
  | [] => none
  | c :: rest =>
    if c = '-' then (parseNatFrom rest).map fun p => (-(p.1 : Int), p.2)
    else (parseNatFrom (c :: rest)).map fun p => ((p.1 : Int), p.2)

mutual

/-- One JSON value, starting at a non-whitespace character; the fuel
bounds the nesting recursion. -/
def parseVal : Nat → List Char → Option (JVal × List Char)
  | 0, _ => none
  | fuel + 1, l =>
    match l with
    | [] => none
    | c :: rest =>
      if c = '"' then
        (parseStrBody (rest.length + 1) rest).map fun p => (JVal.str (String.mk p.1), p.2)
      else if c = '[' then
        match skipWs rest with
        | [] => none
        | c2 :: r2 =>
          if c2 = ']' then some (JVal.arr [], r2)
          else (parseElems fuel (c2 :: r2)).map fun p => (JVal.arr p.1, p.2)
      else if c = '{' then
        match skipWs rest with
        | [] => none
        | c2 :: r2 =>
          if c2 = '}' then some (JVal.obj [], r2)
          else (parseMembers fuel (c2 :: r2)).map fun p => (JVal.obj p.1, p.2)
      else if c = '-' ∨ (digVal c).isSome then
        (parseIntFrom (c :: rest)).map fun p => (JVal.int p.1, p.2)
      else none

/-- Elements of a nonempty array after the opening bracket and leading
whitespace, through the closing bracket. -/
def parseElems : Nat → List Char → Option (List JVal × List Char)
  | 0, _ => none
  | fuel + 1, l =>
    (parseVal fuel l).bind fun p =>
      match skipWs p.2 with
      | [] => none
      | c :: r2 =>
        if c = ',' then (parseElems fuel (skipWs r2)).map fun q => (p.1 :: q.1, q.2)
        else if c = ']' then some ([p.1], r2)
        else none

/-- Members of a nonempty object after the opening brace and leading
whitespace, through the closing brace. -/
def parseMembers : Nat → List Char → Option (List (String × JVal) × List Char)
  | 0, _ => none
  | fuel + 1, l =>
    match l with
    | [] => none
    | c :: rest =>
      if c = '"' then
        (parseStrBody (rest.length + 1) rest).bind fun kp =>
          match skipWs kp.2 with
          | [] => none
          | c2 :: r2 =>
            if c2 = ':' then
              (parseVal fuel (skipWs r2)).bind fun vp =>
                match skipWs vp.2 with
                | [] => none
                | c3 :: r3 =>
                  if c3 = ',' then
                    (parseMembers fuel (skipWs r3)).map fun q => ((String.mk kp.1, vp.1) :: q.1, q.2)
                  else if c3 = '}' then some ([(String.mk kp.1, vp.1)], r3)
                  else none
            else none
      else none

end

/-- `json.loads`: parse a complete document, allowing surrounding
whitespace, requiring the input to be exhausted.  (On the fragment used
here — strings, integers, arrays, objects — this follows Python's `json`;
documents using other JSON constructs are rejected.) -/
def jsonLoads (s : String) : Option JVal :=
  match parseVal (s.data.length + 1) (skipWs s.data) with
  | none => none
  | some p =>
    match skipWs p.2 with
    | [] => some p.1
    | _ => none

/-- `"\n".join(xs)`: Python `str.join` semantics. -/
def pyJoin (sep : String) : List String → String
  | [] => ""
  | [x] => x
  | x :: y :: ys => x ++ sep ++ pyJoin sep (y :: ys)

/-- `s.endswith(t)`: Python suffix test, on unicode scalar sequences. -/
def pyEndsWith (s t : String) : Bool :=
  s.data.drop (s.data.length - t.data.length) = t.data

/-- A node of the canvas, following the `CanvasNode` TypedDict
(`total=False`: every key may be absent, so every field is an `Option`;
field order is the declaration order of the TypedDict). -/
structure CanvasNode where
  id : Option String := none
  type : Option String := none
  x : Option Int := none
  y : Option Int := none
  width : Option Int := none
  height : Option Int := none
  file : Option String := none
  text : Option String := none
  url : Option String := none
  color : Option String := none
  label : Option String := none
deriving DecidableEq

/-- An edge of the canvas, following the `CanvasEdge` TypedDict
(`total=False`). -/
structure CanvasEdge where
  id : Option String := none
  fromNode : Option String := none
  toNode : Option String := none
  fromSide : Option String := none
  toSide : Option String := none
  color : Option String := none
  label : Option String := none
deriving DecidableEq

/-- The dict entry of one optional string-valued key: absent fields
produce no entry. -/
def optStr (k : String) : Option String → List (String × JVal)
  | some s => [(k, JVal.str s)]
  | none => []

/-- The dict entry of one optional int-valued key. -/
def optInt (k : String) : Option Int → List (String × JVal)
  | some i => [(k, JVal.int i)]
  | none => []

/-- The dict a `CanvasNode` is at runtime: exactly its present keys, in
declaration order. -/
def nodeFields (n : CanvasNode) : List (String × JVal) :=
  optStr "id" n.id ++ optStr "type" n.type ++ optInt "x" n.x ++ optInt "y" n.y ++
    optInt "width" n.width ++ optInt "height" n.height ++ optStr "file" n.file ++
    optStr "text" n.text ++ optStr "url" n.url ++ optStr "color" n.color ++
    optStr "label" n.label

/-- A `CanvasNode` as a JSON value. -/
def nodeToJson (n : CanvasNode) : JVal := JVal.obj (nodeFields n)

/-- The dict a `CanvasEdge` is at runtime. -/
def edgeFields (e : CanvasEdge) : List (String × JVal) :=
  optStr "id" e.id ++ optStr "fromNode" e.fromNode ++ optStr "toNode" e.toNode ++
    optStr "fromSide" e.fromSide ++ optStr "toSide" e.toSide ++ optStr "color" e.color ++
    optStr "label" e.label

/-- A `CanvasEdge` as a JSON value. -/
def edgeToJson (e : CanvasEdge) : JVal := JVal.obj (edgeFields e)

/-- First value under key `k` in an association list (Python dicts have
unique keys, so this is dict lookup on any list a dict produced). -/
def lookupKey (k : String) : List (String × JVal) → Option JVal
  | [] => none
  | kv :: rest => if kv.1 = k then some kv.2 else lookupKey k rest

/-- Extract a string value. -/
def asStr : Option JVal → Option String
  | some (JVal.str s) => some s
  | _ => none

/-- Extract an integer value. -/
def asInt : Option JVal → Option Int
  | some (JVal.int i) => some i
  | _ => none

/-- Read a `CanvasNode` back from a JSON object: each field is its key's
value when present. -/
def nodeOfJson : JVal → Option CanvasNode
  | JVal.obj kvs =>
    some ⟨asStr (lookupKey "id" kvs), asStr (lookupKey "type" kvs), asInt (lookupKey "x" kvs),
      asInt (lookupKey "y" kvs), asInt (lookupKey "width" kvs), asInt (lookupKey "height" kvs),
      asStr (lookupKey "file" kvs), asStr (lookupKey "text" kvs), asStr (lookupKey "url" kvs),
      asStr (lookupKey "color" kvs), asStr (lookupKey "label" kvs)⟩
  | _ => none

/-- Read a `CanvasEdge` back from a JSON object. -/
def edgeOfJson : JVal → Option CanvasEdge
  | JVal.obj kvs =>
    some ⟨asStr (lookupKey "id" kvs), asStr (lookupKey "fromNode" kvs),
      asStr (lookupKey "toNode" kvs), asStr (lookupKey "fromSide" kvs),
      asStr (lookupKey "toSide" kvs), asStr (lookupKey "color" kvs),
      asStr (lookupKey "label" kvs)⟩
  | _ => none

/-- Decode every element of a list, failing if any element fails. -/
def mapDecode (f : JVal → Option α) : List JVal → Option (List α)
  | [] => some []
  | x :: xs =>
    match f x with
    | none => none
    | some a => (mapDecode f xs).map fun l => a :: l

/-- Read a whole canvas document back: an object whose `nodes` and `edges`
keys hold arrays of nodes and edges. -/
def docOfJson : JVal → Option (List CanvasNode × List CanvasEdge)
  | JVal.obj [(kn, JVal.arr ns), (ke, JVal.arr es)] =>
    if kn = "nodes" ∧ ke = "edges" then
      match mapDecode nodeOfJson ns, mapDecode edgeOfJson es with
      | some nodes, some edges => some (nodes, edges)
      | _, _ => none
    else none
  | _ => none

/-! ## The adapter and its collaborators

`get_active_project` (from `basic_memory.mcp.project_context`) and
`call_put` (from `basic_memory.mcp.tools.utils`) are not part of the
sources under verification; they are modelled from the spec.  An `Env`
packages the behaviour of the outside world for one invocation: the
project resolver's answer, whether the transport succeeds, and the
response's status code and raw body. -/

/-- The resolved project, exposing its base URL. -/
structure ActiveProject where
  project_url : String
deriving DecidableEq

/-- An HTTP-style response: a status code and a raw body text. -/
structure HttpResponse where
  status_code : Nat
  body : String
deriving DecidableEq

/-- The failures that can surface from one invocation. -/
inductive CanvasError where
  | projectResolution
  | transport
  | remoteWrite (status : Nat)
  | jsonDecode
deriving DecidableEq

/-- The outside world of one invocation. -/
structure Env where
  resolve : Option String → Option ActiveProject
  transportOk : Bool
  status_code : Nat
  body : String

/-- Observable side effects of one invocation, in order. -/
inductive Effect where
  | logInfo (msg : String)
  | put (url : String) (wireBody : String)
  | logDebug (v : JVal)

/-- Modelled from the spec: `get_active_project` (the Project Resolver
collaborator, `basic_memory.mcp.project_context`, not under the verified
sources) resolves the optional project override to the active project and
fails with `ProjectResolutionError` when the named project does not exist
or no active project is set. -/
def get_active_project (env : Env) (project_override : Option String) :
    Except CanvasError ActiveProject :=
  match env.resolve project_override with
  | some p => Except.ok p
  | none => Except.error CanvasError.projectResolution

/-- Modelled from the spec: `call_put` (`basic_memory.mcp.tools.utils`,
not under the verified sources) performs one PUT whose wire body is the
JSON serialization of its `json=` payload — here always a string, so the
wire body is a JSON string literal — and raises for transport failure and
for every non-success (non-2xx) status before returning the response. -/
def call_put (env : Env) (url : String) (payload : String) :
    Except CanvasError HttpResponse × List Effect :=
  (if env.transportOk = false then Except.error CanvasError.transport
   else if 200 ≤ env.status_code ∧ env.status_code < 300 then
     Except.ok ⟨env.status_code, env.body⟩
   else Except.error (CanvasError.remoteWrite env.status_code),
   [Effect.put url (serStringPayload payload)])

/-- `response.json()`: parse the raw body, `JSONDecodeError` when it is
not a JSON document. -/
def response_json (r : HttpResponse) : Option JVal := jsonLoads r.body

/-- Line 142 of the source: `title if title.endswith(".canvas") else
f"\x7btitle\x7d.canvas"`. -/
def file_title (title : String) : String :=
  if pyEndsWith title ".canvas" then title else title ++ ".canvas"

/-- Line 143 of the source: `f"\x7bfolder\x7d/\x7bfile_title\x7d"`. -/
def file_path (folder title : String) : String :=
  folder ++ "/" ++ file_title title

/-- Line 146 of the source: `\x7b"nodes": nodes, "edges": edges\x7d`. -/
def canvas_data (nodes : List CanvasNode) (edges : List CanvasEdge) : JVal :=
  JVal.obj [("nodes", JVal.arr (nodes.map nodeToJson)), ("edges", JVal.arr (edges.map edgeToJson))]

/-- Line 149 of the source: `json.dumps(canvas_data, indent=2)`. -/
def canvas_json (nodes : List CanvasNode) (edges : List CanvasEdge) : String :=
  jsonDumps2 (canvas_data nodes edges)

/-- The `canvas` tool itself (lines 138–163 of the source): resolve the
project, normalize the path, serialize, PUT, parse the response body, and
render the summary.  The first component is the returned string or the
propagated error; the second is the effect trace. -/
def canvas (nodes : List CanvasNode) (edges : List CanvasEdge) (title folder : String)
    (project : Option String) (env : Env) : Except CanvasError String × List Effect :=
  match get_active_project env project with
  | Except.error e => (Except.error e, [])
  | Except.ok active_project =>
    let project_url := active_project.project_url
    let fp := file_path folder title
    let cjson := canvas_json nodes edges
    let infoEff := Effect.logInfo ("Creating canvas file: " ++ fp)
    let putPair := call_put env (project_url ++ "/resource/" ++ fp) cjson
    match putPair.1 with
    | Except.error e => (Except.error e, infoEff :: putPair.2)
    | Except.ok response =>
      match response_json response with
      | none => (Except.error CanvasError.jsonDecode, infoEff :: putPair.2)
      | some result =>
        let action := if response.status_code = 201 then "Created" else "Updated"
        let summary := ["# " ++ action ++ ": " ++ fp, "\nThe canvas is ready to open in Obsidian."]
        (Except.ok (pyJoin "\n" summary), infoEff :: (putPair.2 ++ [Effect.logDebug result]))

/-- True when the input does not begin with a decimal digit (so a digit
run just before it ends there). -/
def leadNotDigit : List Char → Bool
  | [] => true
  | c :: _ => (digVal c).isNone

/-- The serialized elements of a nonempty array, without its brackets:
first element, then `serArrTail`. -/
def serElemsList (lvl : Nat) : List JVal → List Char
  | [] => []
  | x :: xs => serVal lvl x ++ serArrTail lvl xs

/-- The serialized members of a nonempty object, without its braces. -/
def serMembersList (lvl : Nat) : List (String × JVal) → List Char
  | [] => []
  | kv :: kvs => serStr kv.1 ++ (':' :: ' ' :: serVal lvl kv.2 ++ serObjTail lvl kvs)

/-- Number of remote writes in a trace. -/
def putCount : List Effect → Nat
  | [] => 0
  | Effect.put _ _ :: rest => putCount rest + 1
  | _ :: rest => putCount rest

/-- The wire bodies of the remote writes in a trace, in order. -/
def putBodies : List Effect → List String
  | [] => []
  | Effect.put _ b :: rest => b :: putBodies rest
  | _ :: rest => putBodies rest

/-- A resolved project, for concrete runs. -/
def sampleProject : ActiveProject := ⟨"http://u"⟩

/-- A world that resolves every project, succeeds on the wire with status
201 and returns the JSON body `\x7b\x7d`. -/
def sampleEnv201 : Env := ⟨fun _ => some sampleProject, true, 201, "\x7b\x7d"⟩

/-- Like `sampleEnv201` but with status 200 and the JSON body `[]`. -/
def sampleEnvArrBody : Env := ⟨fun _ => some sampleProject, true, 200, "[]"⟩

/-- Like `sampleEnv201` but with the same status 201 and the JSON body
`[]`. -/
def sampleEnv201ArrBody : Env := ⟨fun _ => some sampleProject, true, 201, "[]"⟩

/-- A world whose write succeeds with status 200 but answers a body that
is not a JSON document. -/
def sampleEnvBadBody : Env := ⟨fun _ => some sampleProject, true, 200, "not json"⟩

/-- A world in which project resolution fails. -/
def sampleEnvNoProject : Env := ⟨fun _ => none, true, 200, "\x7b\x7d"⟩

/-! ## Digit and integer round-trips -/

theorem hexVal_hexDig : ∀ d, d < 16 → hexVal (hexDig d) = some d := by decide

theorem digVal_hexDig : ∀ d, d < 10 → digVal (hexDig d) = some d := by decide

theorem natDigitsF_spec : ∀ fuel n, n < fuel →
    natDigitsF fuel n ≠ [] ∧ (∀ c ∈ natDigitsF fuel n, (digVal c).isSome = true) ∧
      ∀ acc : Nat, (natDigitsF fuel n).foldl (fun a c => a * 10 + (digVal c).getD 0) acc =
        acc * 10 ^ (natDigitsF fuel n).length + n := by
  intro fuel
  induction fuel with
  | zero => intro n h; omega
  | succ f ih =>
    intro n h
    by_cases h10 : n < 10
    · refine ⟨by simp [natDigitsF, h10], ?_, ?_⟩
      · intro c hc
        simp [natDigitsF, h10] at hc
        subst hc
        simp [digVal_hexDig n h10]
      · intro acc
        simp [natDigitsF, h10, digVal_hexDig n h10]
    · have hdiv : n / 10 < f := by omega
      obtain ⟨hne, hdig, hval⟩ := ih (n / 10) hdiv
      refine ⟨by simp [natDigitsF, h10], ?_, ?_⟩
      · intro c hc
        simp [natDigitsF, h10] at hc
        rcases hc with hc | hc
        · exact hdig c hc
        · subst hc
          simp [digVal_hexDig (n % 10) (by omega)]
      · intro acc
        simp only [natDigitsF, if_neg h10]
        rw [List.foldl_append, List.length_append]
        simp [hval acc, digVal_hexDig (n % 10) (by omega)]
        rw [pow_succ]
        have hmod : n / 10 * 10 + n % 10 = n := by omega
        ring_nf
        omega

theorem natDigits_ne_nil (n : Nat) : natDigits n ≠ [] :=
  (natDigitsF_spec (n + 1) n (by omega)).1

theorem natDigits_digits (n : Nat) : ∀ c ∈ natDigits n, (digVal c).isSome = true :=
  (natDigitsF_spec (n + 1) n (by omega)).2.1

theorem digitsVal_natDigits (n : Nat) : digitsVal (natDigits n) = n := by
  have h := (natDigitsF_spec (n + 1) n (by omega)).2.2 0
  simpa [digitsVal, natDigits] using h

theorem takeDigits_append : ∀ (ds rest : List Char), (∀ c ∈ ds, (digVal c).isSome = true) →
    leadNotDigit rest = true → takeDigits (ds ++ rest) = (ds, rest)
  | [], rest, _, hr => by
    cases rest with
    | nil => rfl
    | cons c r =>
      have hnone : digVal c = none := by
        simpa [leadNotDigit, Option.isNone_iff_eq_none] using hr
      simp [takeDigits, hnone]
  | d :: ds, rest, hds, hr => by
    have hd : (digVal d).isSome = true := hds d (by simp)
    obtain ⟨v, hv⟩ := Option.isSome_iff_exists.mp hd
    have ih := takeDigits_append ds rest (fun c hc => hds c (by simp [hc])) hr
    simp [takeDigits, hv, ih]

theorem parseNatFrom_natDigits (n : Nat) (rest : List Char) (hr : leadNotDigit rest = true) :
    parseNatFrom (natDigits n ++ rest) = some (n, rest) := by
  have ht := takeDigits_append (natDigits n) rest (natDigits_digits n) hr
  simp [parseNatFrom, ht, natDigits_ne_nil n, digitsVal_natDigits n]

theorem parseIntFrom_serInt (i : Int) (rest : List Char) (hr : leadNotDigit rest = true) :
    parseIntFrom (serInt i ++ rest) = some (i, rest) := by
  by_cases hneg : i < 0
  · simp [serInt, hneg, parseIntFrom, parseNatFrom_natDigits _ _ hr, abs_of_neg hneg]
  · obtain ⟨d, tl, hd⟩ := List.exists_cons_of_ne_nil (natDigits_ne_nil i.natAbs)
    have hdig : (digVal d).isSome = true := natDigits_digits _ d (by rw [hd]; simp)
    have hdash : digVal '-' = none := by decide
    have hdne : d ≠ '-' := by
      intro hcon
      rw [hcon, hdash] at hdig
      simp at hdig
    have habs : ((i.natAbs : Nat) : Int) = i := by omega
    rw [serInt, if_neg hneg, hd, List.cons_append]
    simp only [parseIntFrom, if_neg hdne]
    rw [← List.cons_append, ← hd, parseNatFrom_natDigits _ _ hr]
    simp [habs]

theorem serInt_head (i : Int) :
    ∃ d tl, serInt i = d :: tl ∧ (d = '-' ∨ (digVal d).isSome = true) := by
  by_cases hneg : i < 0
  · exact ⟨'-', natDigits i.natAbs, by simp [serInt, hneg], Or.inl rfl⟩
  · obtain ⟨d, tl, hd⟩ := List.exists_cons_of_ne_nil (natDigits_ne_nil i.natAbs)
    exact ⟨d, tl, by simp [serInt, hneg, hd], Or.inr (natDigits_digits _ d (by rw [hd]; simp))⟩

/-! ## String-escape round-trip -/

set_option maxHeartbeats 1000000 in
theorem escChar_length_pos (c : Char) : 1 ≤ (escChar c).length := by
  unfold escChar
  split_ifs <;> simp [uEsc]

theorem escStr_length_ge : ∀ s : List Char, s.length ≤ (escStr s).length
  | [] => by simp [escStr]
  | c :: cs => by
    have h1 := escChar_length_pos c
    have h2 := escStr_length_ge cs
    simp only [escStr, List.length_append, List.length_cons]
    omega

theorem char_toNat_valid (c : Char) :
    c.toNat < 0xd800 ∨ (0xdfff < c.toNat ∧ c.toNat < 0x110000) := by
  rcases c.valid with h | ⟨h1, h2⟩
  · exact Or.inl h
  · exact Or.inr ⟨h1, h2⟩

theorem parseHex4_digits (n : Nat) (hn : n < 0x10000) (rest : List Char) :
    parseHex4 (hexDig (n / 4096 % 16) :: hexDig (n / 256 % 16) :: hexDig (n / 16 % 16) ::
      hexDig (n % 16) :: rest) = some (n, rest) := by
  have e1 := hexVal_hexDig (n / 4096 % 16) (by omega)
  have e2 := hexVal_hexDig (n / 256 % 16) (by omega)
  have e3 := hexVal_hexDig (n / 16 % 16) (by omega)
  have e4 := hexVal_hexDig (n % 16) (by omega)
  simp [parseHex4, e1, e2, e3, e4]
  omega

theorem parseStrBody_uEsc (n : Nat) (hn : n < 0x10000) (hv : n < 0xd800 ∨ 0xdfff < n)
    (f : Nat) (tail : List Char) :
    parseStrBody (f + 1) (uEsc n ++ tail) =
      (parseStrBody f tail).map fun p => (Char.ofNat n :: p.1, p.2) := by
  simp [uEsc, parseStrBody, parseHex4_digits n hn, hv]

theorem parseStrBody_uEsc2 (n m : Nat) (hn1 : 0xd800 ≤ n) (hn2 : n < 0xdc00)
    (hm1 : 0xdc00 ≤ m) (hm2 : m ≤ 0xdfff) (f : Nat) (tail : List Char) :
    parseStrBody (f + 1) (uEsc n ++ (uEsc m ++ tail)) =
      (parseStrBody f tail).map fun p =>
        (Char.ofNat (0x10000 + (n - 0xd800) * 0x400 + (m - 0xdc00)) :: p.1, p.2) := by
  have hnot : ¬(n < 0xd800 ∨ 0xdfff < n) := by omega
  simp [uEsc, parseStrBody, parseHex4_digits n (by omega), parseHex4_digits m (by omega),
    hnot, hn2, hm1, hm2]

theorem parseStrBody_escStr : ∀ (s rest : List Char) (fuel : Nat), s.length < fuel →
    parseStrBody fuel (escStr s ++ ('"' :: rest)) = some (s, rest)
  | [], rest, fuel + 1, _ => by simp [escStr, parseStrBody]
  | c :: s, rest, fuel + 1, h => by
    have ih := parseStrBody_escStr s rest fuel (by simp at h; omega)
    by_cases h1 : c = '"'
    · subst h1
      simp [escStr, escChar, parseStrBody, ih]
    · by_cases h2 : c = '\\'
      · subst h2
        simp [escStr, escChar, parseStrBody, ih]
      · by_cases h3 : c = '\x08'
        · subst h3
          simp [escStr, escChar, parseStrBody, ih]
        · by_cases h4 : c = '\x0c'
          · subst h4
            simp [escStr, escChar, parseStrBody, ih]
          · by_cases h5 : c = '\n'
            · subst h5
              simp [escStr, escChar, parseStrBody, ih]
            · by_cases h6 : c = '\r'
              · subst h6
                simp [escStr, escChar, parseStrBody, ih]
              · by_cases h7 : c = '\t'
                · subst h7
                  simp [escStr, escChar, parseStrBody, ih]
                · by_cases hlt : c.toNat < 0x20
                  · have hesc : escChar c = uEsc c.toNat := by
                      simp [escChar, h1, h2, h3, h4, h5, h6, h7, hlt]
                    rw [escStr, hesc, List.append_assoc,
                      parseStrBody_uEsc c.toNat (by omega) (by omega) fuel _, ih]
                    simp [Char.ofNat_toNat]
                  · by_cases hle : c.toNat ≤ 0x7e
                    · have hesc : escChar c = [c] := by
                        simp [escChar, h1, h2, h3, h4, h5, h6, h7, hlt, hle]
                      rw [escStr, hesc]
                      have hge : 0x20 ≤ c.toNat := by omega
                      simp [parseStrBody, h1, h2, hge, ih]
                    · by_cases hbmp : c.toNat < 0x10000
                      · have hval := char_toNat_valid c
                        have hesc : escChar c = uEsc c.toNat := by
                          simp [escChar, h1, h2, h3, h4, h5, h6, h7, hlt, hle, hbmp]
                        rw [escStr, hesc, List.append_assoc,
                          parseStrBody_uEsc c.toNat hbmp (by omega) fuel _, ih]
                        simp [Char.ofNat_toNat]
                      · have hval := char_toNat_valid c
                        have hesc : escChar c =
                            uEsc (0xd800 + (c.toNat - 0x10000) / 0x400) ++
                              uEsc (0xdc00 + (c.toNat - 0x10000) % 0x400) := by
                          simp [escChar, h1, h2, h3, h4, h5, h6, h7, hlt, hle, hbmp]
                        rw [escStr, hesc, List.append_assoc, List.append_assoc,
                          parseStrBody_uEsc2 _ _ (by omega) (by omega) (by omega) (by omega)
                            fuel _, ih]
                        have harc : 0x10000 + (c.toNat - 0x10000) / 0x400 * 0x400 +
                            (c.toNat - 0x10000) % 0x400 = c.toNat := by
                          omega
                        simp [harc, Char.ofNat_toNat]

/-! ## Whitespace and head-character lemmas -/

theorem skipWs_replicate (n : Nat) (l : List Char) :
    skipWs (List.replicate n ' ' ++ l) = skipWs l := by
  induction n with
  | zero => simp
  | succ m ih => simp [List.replicate_succ, skipWs, isWs, ih]

theorem skipWs_nlInd (lvl : Nat) (l : List Char) : skipWs (nlInd lvl ++ l) = skipWs l := by
  simp [nlInd, skipWs, isWs, skipWs_replicate]

theorem skipWs_cons (c : Char) (l : List Char) (h : isWs c = false) :
    skipWs (c :: l) = c :: l := by
  simp [skipWs, h]

theorem skipWs_space (l : List Char) : skipWs (' ' :: l) = skipWs l := by
  simp [skipWs, isWs]

theorem digit_head_facts (c : Char) (h : (digVal c).isSome = true) :
    isWs c = false ∧ c ≠ ']' ∧ c ≠ '}' ∧ c ≠ '"' ∧ c ≠ '[' ∧ c ≠ '{' := by
  refine ⟨?_, ?_, ?_, ?_, ?_, ?_⟩
  · cases hw : isWs c
    · rfl
    · exfalso
      simp [isWs] at hw
      rcases hw with rfl | rfl | rfl | rfl <;> exact absurd h (by decide)
  all_goals intro he
  all_goals rw [he] at h
  all_goals exact absurd h (by decide)

theorem serVal_head (lvl : Nat) (v : JVal) :
    ∃ c t, serVal lvl v = c :: t ∧ isWs c = false ∧ c ≠ ']' ∧ c ≠ '}' := by
  cases v with
  | str s => exact ⟨'"', escStr s.data ++ ['"'], rfl, by decide, by decide, by decide⟩
  | int i =>
    obtain ⟨d, tl, hd, hor⟩ := serInt_head i
    refine ⟨d, tl, by simp [serVal, hd], ?_, ?_, ?_⟩ <;>
      rcases hor with rfl | hdig
    · decide
    · exact (digit_head_facts d hdig).1
    · decide
    · exact (digit_head_facts d hdig).2.1
    · decide
    · exact (digit_head_facts d hdig).2.2.1
  | arr xs =>
    cases xs with
    | nil => exact ⟨'[', [']'], rfl, by decide, by decide, by decide⟩
    | cons x xs =>
      exact ⟨'[', nlInd (lvl + 1) ++ (serVal (lvl + 1) x ++ (serArrTail (lvl + 1) xs ++
        (nlInd lvl ++ [']']))), rfl, by decide, by decide, by decide⟩
  | obj kvs =>
    cases kvs with
    | nil => exact ⟨'{', ['}'], rfl, by decide, by decide, by decide⟩
    | cons kv kvs =>
      exact ⟨'{', nlInd (lvl + 1) ++ (serStr kv.1 ++ (':' :: ' ' :: serVal (lvl + 1) kv.2 ++
        (serObjTail (lvl + 1) kvs ++ (nlInd lvl ++ ['}'])))), rfl, by decide, by decide, by decide⟩

theorem skipWs_serVal (lvl : Nat) (v : JVal) (l : List Char) :
    skipWs (serVal lvl v ++ l) = serVal lvl v ++ l := by
  obtain ⟨c, t, hc, hw, _, _⟩ := serVal_head lvl v
  rw [hc, List.cons_append, skipWs_cons _ _ hw]

theorem skipWs_serStr (k : String) (l : List Char) :
    skipWs (serStr k ++ l) = serStr k ++ l := by
  simp only [serStr, List.cons_append]
  exact skipWs_cons _ _ (by decide)

theorem skipWs_serElemsList (lvl : Nat) (xs : List JVal) (hne : xs ≠ []) (l : List Char) :
    skipWs (serElemsList lvl xs ++ l) = serElemsList lvl xs ++ l := by
  cases xs with
  | nil => exact absurd rfl hne
  | cons x xs =>
    simp only [serElemsList, List.append_assoc]
    exact skipWs_serVal _ _ _

theorem skipWs_serMembersList (lvl : Nat) (kvs : List (String × JVal)) (hne : kvs ≠ [])
    (l : List Char) : skipWs (serMembersList lvl kvs ++ l) = serMembersList lvl kvs ++ l := by
  cases kvs with
  | nil => exact absurd rfl hne
  | cons kv kvs =>
    simp only [serMembersList, List.append_assoc]
    exact skipWs_serStr _ _

/-! ## Size bounds for the parser's fuel -/

theorem sizeJ_pos (v : JVal) : 1 ≤ sizeJ v := by
  cases v <;> simp [sizeJ]

theorem sizeL_pos (xs : List JVal) : 1 ≤ sizeL xs := by
  cases xs <;> simp [sizeL]
  omega

theorem sizeO_pos (kvs : List (String × JVal)) : 1 ≤ sizeO kvs := by
  cases kvs <;> simp [sizeO]
  omega

theorem nlInd_length (lvl : Nat) : (nlInd lvl).length = 2 * lvl + 1 := by
  simp [nlInd]

theorem serStr_length_ge (s : String) : 2 ≤ (serStr s).length := by
  simp [serStr]

theorem serInt_length_pos (i : Int) : 1 ≤ (serInt i).length := by
  obtain ⟨d, tl, hd, _⟩ := serInt_head i
  simp [hd]

mutual

theorem sizeJ_le_len : ∀ (v : JVal) (lvl : Nat), sizeJ v ≤ (serVal lvl v).length
  | .str s, lvl => by
    have := serStr_length_ge s
    simp only [sizeJ, serVal]
    omega
  | .int i, lvl => by
    have := serInt_length_pos i
    simp only [sizeJ, serVal]
    omega
  | .arr [], lvl => by simp [sizeJ, sizeL, serVal, serArr]
  | .arr (x :: xs), lvl => by
    have h1 := sizeJ_le_len x (lvl + 1)
    have h2 := sizeL_le_len xs (lvl + 1)
    simp only [sizeJ, sizeL, serVal, serArr, List.length_cons, List.length_append, nlInd_length]
    omega
  | .obj [], lvl => by simp [sizeJ, sizeO, serVal, serObj]
  | .obj (kv :: kvs), lvl => by
    have h1 := sizeJ_le_len kv.2 (lvl + 1)
    have h2 := sizeO_le_len kvs (lvl + 1)
    have h3 := serStr_length_ge kv.1
    simp only [sizeJ, sizeO, serVal, serObj, List.length_cons, List.length_append, nlInd_length]
    omega

theorem sizeL_le_len : ∀ (xs : List JVal) (lvl : Nat), sizeL xs ≤ (serArrTail lvl xs).length + 1
  | [], lvl => by simp [sizeL, serArrTail]
  | x :: xs, lvl => by
    have h1 := sizeJ_le_len x lvl
    have h2 := sizeL_le_len xs lvl
    simp only [sizeL, serArrTail, List.length_cons, List.length_append, nlInd_length]
    omega

theorem sizeO_le_len : ∀ (kvs : List (String × JVal)) (lvl : Nat),
    sizeO kvs ≤ (serObjTail lvl kvs).length + 1
  | [], lvl => by simp [sizeO, serObjTail]
  | kv :: kvs, lvl => by
    have h1 := sizeJ_le_len kv.2 lvl
    have h2 := sizeO_le_len kvs lvl
    have h3 := serStr_length_ge kv.1
    simp only [sizeO, serObjTail, List.length_cons, List.length_append, nlInd_length]
    omega

end

/-! ## Serialize-then-parse round-trip -/

theorem leadNotDigit_nlInd (lvl : Nat) (l : List Char) : leadNotDigit (nlInd lvl ++ l) = true :=
  rfl

theorem leadNotDigit_comma (l : List Char) : leadNotDigit (',' :: l) = true := rfl

mutual

theorem parseVal_ser : ∀ (v : JVal) (lvl : Nat) (rest : List Char) (fuel : Nat),
    sizeJ v ≤ fuel → leadNotDigit rest = true →
    parseVal fuel (serVal lvl v ++ rest) = some (v, rest)
  | .str s, lvl, rest, fuel, hf, _ => by
    obtain ⟨f, rfl⟩ : ∃ f, fuel = f + 1 := ⟨fuel - 1, by have := sizeJ_pos (JVal.str s); omega⟩
    have hser : serVal lvl (JVal.str s) ++ rest = '"' :: (escStr s.data ++ ('"' :: rest)) := by
      simp [serVal, serStr]
    have hlen : s.data.length < (escStr s.data ++ ('"' :: rest)).length + 1 := by
      have := escStr_length_ge s.data
      simp only [List.length_append, List.length_cons]
      omega
    rw [hser]
    simp only [parseVal]
    rw [if_true, parseStrBody_escStr s.data rest _ hlen]
    rfl
  | .int i, lvl, rest, fuel, hf, hr => by
    obtain ⟨f, rfl⟩ : ∃ f, fuel = f + 1 := ⟨fuel - 1, by have := sizeJ_pos (JVal.int i); omega⟩
    obtain ⟨d, tl, hd, hor⟩ := serInt_head i
    have hguard : d = '-' ∨ (digVal d).isSome = true := hor
    have h1 : ¬d = '"' := by
      rcases hor with rfl | hdig
      · decide
      · exact (digit_head_facts d hdig).2.2.2.1
    have h2 : ¬d = '[' := by
      rcases hor with rfl | hdig
      · decide
      · exact (digit_head_facts d hdig).2.2.2.2.1
    have h3 : ¬d = '{' := by
      rcases hor with rfl | hdig
      · decide
      · exact (digit_head_facts d hdig).2.2.2.2.2
    have hser : serVal lvl (JVal.int i) ++ rest = d :: (tl ++ rest) := by
      simp [serVal, hd]
    rw [hser]
    simp only [parseVal, if_neg h1, if_neg h2, if_neg h3, if_pos hguard]
    rw [← List.cons_append, ← hd, parseIntFrom_serInt i rest hr]
    rfl
  | .arr [], lvl, rest, fuel, hf, _ => by
    obtain ⟨f, rfl⟩ : ∃ f, fuel = f + 1 := ⟨fuel - 1, by have := sizeJ_pos (JVal.arr []); omega⟩
    have hser : serVal lvl (JVal.arr []) ++ rest = '[' :: (']' :: rest) := by
      simp [serVal, serArr]
    rw [hser]
    simp [parseVal, skipWs_cons ']' rest (by decide)]
  | .arr (x :: xs), lvl, rest, fuel, hf, _ => by
    obtain ⟨f, rfl⟩ : ∃ f, fuel = f + 1 :=
      ⟨fuel - 1, by have := sizeJ_pos (JVal.arr (x :: xs)); omega⟩
    have hfs : sizeL (x :: xs) ≤ f := by
      simp only [sizeJ] at hf
      omega
    have hser : serVal lvl (JVal.arr (x :: xs)) ++ rest =
        '[' :: (nlInd (lvl + 1) ++ (serVal (lvl + 1) x ++ (serArrTail (lvl + 1) xs ++
          (nlInd lvl ++ (']' :: rest))))) := by
      simp [serVal, serArr]
    rw [hser]
    obtain ⟨c0, t0, hc0, hw0, hne0, _⟩ := serVal_head (lvl + 1) x
    have helems := parseElems_ser (x :: xs) (lvl + 1) lvl rest f hfs (by simp)
    rw [show serElemsList (lvl + 1) (x :: xs) =
      serVal (lvl + 1) x ++ serArrTail (lvl + 1) xs from rfl, List.append_assoc] at helems
    rw [hc0, List.cons_append] at helems
    simp only [parseVal, skipWs_nlInd, skipWs_serVal]
    rw [hc0, List.cons_append]
    simp [hne0, helems]
  | .obj [], lvl, rest, fuel, hf, _ => by
    obtain ⟨f, rfl⟩ : ∃ f, fuel = f + 1 := ⟨fuel - 1, by have := sizeJ_pos (JVal.obj []); omega⟩
    have hser : serVal lvl (JVal.obj []) ++ rest = '{' :: ('}' :: rest) := by
      simp [serVal, serObj]
    rw [hser]
    simp [parseVal, skipWs_cons '}' rest (by decide)]
  | .obj (kv :: kvs), lvl, rest, fuel, hf, _ => by
    obtain ⟨f, rfl⟩ : ∃ f, fuel = f + 1 :=
      ⟨fuel - 1, by have := sizeJ_pos (JVal.obj (kv :: kvs)); omega⟩
    have hfs : sizeO (kv :: kvs) ≤ f := by
      simp only [sizeJ] at hf
      omega
    have hser : serVal lvl (JVal.obj (kv :: kvs)) ++ rest =
        '{' :: (nlInd (lvl + 1) ++ (serStr kv.1 ++ (':' :: ' ' :: serVal (lvl + 1) kv.2 ++
          (serObjTail (lvl + 1) kvs ++ (nlInd lvl ++ ('}' :: rest)))))) := by
      simp [serVal, serObj]
    rw [hser]
    have hmembers := parseMembers_ser (kv :: kvs) (lvl + 1) lvl rest f hfs (by simp)
    simp only [serMembersList, serStr, List.cons_append, List.nil_append,
      List.append_assoc] at hmembers
    simp only [parseVal, skipWs_nlInd, skipWs_serStr]
    simp [serStr, hmembers]

theorem parseElems_ser : ∀ (xs : List JVal) (lvl lvl2 : Nat) (rest : List Char) (fuel : Nat),
    sizeL xs ≤ fuel → xs ≠ [] →
    parseElems fuel (serElemsList lvl xs ++ (nlInd lvl2 ++ (']' :: rest))) = some (xs, rest)
  | [], _, _, _, _, _, hne => absurd rfl hne
  | [x], lvl, lvl2, rest, fuel, hf, _ => by
    obtain ⟨f, rfl⟩ : ∃ f, fuel = f + 1 := ⟨fuel - 1, by have := sizeL_pos [x]; omega⟩
    have hx : sizeJ x ≤ f := by
      simp only [sizeL] at hf
      omega
    rw [show serElemsList lvl [x] = serVal lvl x from by simp [serElemsList, serArrTail]]
    simp only [parseElems]
    rw [parseVal_ser x lvl (nlInd lvl2 ++ (']' :: rest)) f hx (leadNotDigit_nlInd _ _)]
    simp [skipWs_nlInd, skipWs_cons ']' rest (by decide)]
  | x :: y :: ys, lvl, lvl2, rest, fuel, hf, _ => by
    obtain ⟨f, rfl⟩ : ∃ f, fuel = f + 1 :=
      ⟨fuel - 1, by have := sizeL_pos (x :: y :: ys); omega⟩
    have hx : sizeJ x ≤ f := by
      have := sizeL_pos (y :: ys)
      simp only [sizeL] at hf ⊢
      omega
    have hys : sizeL (y :: ys) ≤ f := by
      have := sizeJ_pos x
      simp only [sizeL] at hf ⊢
      omega
    have hser : serElemsList lvl (x :: y :: ys) ++ (nlInd lvl2 ++ (']' :: rest)) =
        serVal lvl x ++ (',' :: (nlInd lvl ++ (serElemsList lvl (y :: ys) ++
          (nlInd lvl2 ++ (']' :: rest))))) := by
      simp [serElemsList, serArrTail]
    rw [hser]
    have hrec := parseElems_ser (y :: ys) lvl lvl2 rest f hys (by simp)
    simp only [parseElems]
    rw [parseVal_ser x lvl _ f hx (leadNotDigit_comma _)]
    simp [skipWs_cons ',' _ (by decide), skipWs_nlInd,
      skipWs_serElemsList lvl (y :: ys) (by simp), hrec]

theorem parseMembers_ser : ∀ (kvs : List (String × JVal)) (lvl lvl2 : Nat) (rest : List Char)
    (fuel : Nat), sizeO kvs ≤ fuel → kvs ≠ [] →
    parseMembers fuel (serMembersList lvl kvs ++ (nlInd lvl2 ++ ('}' :: rest))) = some (kvs, rest)
  | [], _, _, _, _, _, hne => absurd rfl hne
  | [kv], lvl, lvl2, rest, fuel, hf, _ => by
    obtain ⟨f, rfl⟩ : ∃ f, fuel = f + 1 := ⟨fuel - 1, by have := sizeO_pos [kv]; omega⟩
    have hv : sizeJ kv.2 ≤ f := by
      simp only [sizeO] at hf
      omega
    have hser : serMembersList lvl [kv] ++ (nlInd lvl2 ++ ('}' :: rest)) =
        '"' :: (escStr kv.1.data ++ ('"' :: (':' :: ' ' :: (serVal lvl kv.2 ++
          (nlInd lvl2 ++ ('}' :: rest)))))) := by
      simp [serMembersList, serObjTail, serStr]
    rw [hser]
    have hlen : kv.1.data.length < (escStr kv.1.data ++ ('"' :: (':' :: ' ' ::
        (serVal lvl kv.2 ++ (nlInd lvl2 ++ ('}' :: rest)))))).length + 1 := by
      have := escStr_length_ge kv.1.data
      simp only [List.length_append, List.length_cons]
      omega
    simp only [parseMembers]
    rw [if_true, parseStrBody_escStr _ _ _ hlen]
    simp [skipWs_cons ':' _ (by decide), skipWs_space, skipWs_serVal,
      parseVal_ser kv.2 lvl _ f hv (leadNotDigit_nlInd _ _), skipWs_nlInd,
      skipWs_cons '}' rest (by decide)]
  | kv :: kv2 :: kvs, lvl, lvl2, rest, fuel, hf, _ => by
    obtain ⟨f, rfl⟩ : ∃ f, fuel = f + 1 :=
      ⟨fuel - 1, by have := sizeO_pos (kv :: kv2 :: kvs); omega⟩
    have hv : sizeJ kv.2 ≤ f := by
      have := sizeO_pos (kv2 :: kvs)
      simp only [sizeO] at hf ⊢
      omega
    have hkvs : sizeO (kv2 :: kvs) ≤ f := by
      have := sizeJ_pos kv.2
      simp only [sizeO] at hf ⊢
      omega
    have hser : serMembersList lvl (kv :: kv2 :: kvs) ++ (nlInd lvl2 ++ ('}' :: rest)) =
        '"' :: (escStr kv.1.data ++ ('"' :: (':' :: ' ' :: (serVal lvl kv.2 ++
          (',' :: (nlInd lvl ++ (serMembersList lvl (kv2 :: kvs) ++
            (nlInd lvl2 ++ ('}' :: rest))))))))) := by
      simp [serMembersList, serObjTail, serStr]
    rw [hser]
    have hlen : kv.1.data.length < (escStr kv.1.data ++ ('"' :: (':' :: ' ' ::
        (serVal lvl kv.2 ++ (',' :: (nlInd lvl ++ (serMembersList lvl (kv2 :: kvs) ++
          (nlInd lvl2 ++ ('}' :: rest))))))))).length + 1 := by
      have := escStr_length_ge kv.1.data
      simp only [List.length_append, List.length_cons]
      omega
    have hrec := parseMembers_ser (kv2 :: kvs) lvl lvl2 rest f hkvs (by simp)
    have hhead : skipWs (serMembersList lvl (kv2 :: kvs) ++ (nlInd lvl2 ++ ('}' :: rest))) =
        serMembersList lvl (kv2 :: kvs) ++ (nlInd lvl2 ++ ('}' :: rest)) := by
      rw [show serMembersList lvl (kv2 :: kvs) ++ (nlInd lvl2 ++ ('}' :: rest)) =
        '"' :: (escStr kv2.1.data ++ ('"' :: (':' :: ' ' :: (serVal lvl kv2.2 ++
          (serObjTail lvl kvs ++ (nlInd lvl2 ++ ('}' :: rest))))))) from by
        simp [serMembersList, serStr]]
      exact skipWs_cons _ _ (by decide)
    simp only [parseMembers]
    rw [if_true, parseStrBody_escStr _ _ _ hlen]
    simp [skipWs_cons ':' _ (by decide), skipWs_space, skipWs_serVal,
      parseVal_ser kv.2 lvl _ f hv (leadNotDigit_comma _), skipWs_cons ',' _ (by decide),
      skipWs_nlInd, hhead, hrec]

end

theorem jsonLoads_jsonDumps2 (v : JVal) : jsonLoads (jsonDumps2 v) = some v := by
  unfold jsonLoads jsonDumps2
  have hdata : (String.mk (serVal 0 v)).data = serVal 0 v := rfl
  rw [hdata]
  obtain ⟨c, t, hc, hw, _, _⟩ := serVal_head 0 v
  rw [hc, skipWs_cons _ _ hw, ← hc]
  have hfuel : sizeJ v ≤ (serVal 0 v).length + 1 := le_trans (sizeJ_le_len v 0) (by omega)
  have hrt := parseVal_ser v 0 [] ((serVal 0 v).length + 1) hfuel rfl
  rw [List.append_nil] at hrt
  rw [hrt]
  rfl

theorem jsonLoads_serStringPayload (s : String) :
    jsonLoads (serStringPayload s) = some (JVal.str s) :=
  jsonLoads_jsonDumps2 (JVal.str s)

/-! ## Decoding nodes and edges back from JSON -/

theorem lookupKey_optStr_ne (k k' : String) (v : Option String)
    (rest : List (String × JVal)) (h : ¬k' = k) :
    lookupKey k (optStr k' v ++ rest) = lookupKey k rest := by
  cases v <;> simp [optStr, lookupKey, h]

theorem lookupKey_optInt_ne (k k' : String) (v : Option Int)
    (rest : List (String × JVal)) (h : ¬k' = k) :
    lookupKey k (optInt k' v ++ rest) = lookupKey k rest := by
  cases v <;> simp [optInt, lookupKey, h]

theorem lookupKey_optStr_last (k k' : String) (v : Option String) (h : ¬k' = k) :
    lookupKey k (optStr k' v) = none := by
  cases v <;> simp [optStr, lookupKey, h]

theorem lookupKey_optInt_last (k k' : String) (v : Option Int) (h : ¬k' = k) :
    lookupKey k (optInt k' v) = none := by
  cases v <;> simp [optInt, lookupKey, h]

theorem asStr_lookup_optStr_last (k : String) (v : Option String) :
    asStr (lookupKey k (optStr k v)) = v := by
  cases v <;> simp [optStr, lookupKey, asStr]

theorem asStr_lookup_optStr (k : String) (v : Option String) (rest : List (String × JVal))
    (h : lookupKey k rest = none) : asStr (lookupKey k (optStr k v ++ rest)) = v := by
  cases v <;> simp [optStr, lookupKey, asStr, h]

theorem asInt_lookup_optInt (k : String) (v : Option Int) (rest : List (String × JVal))
    (h : lookupKey k rest = none) : asInt (lookupKey k (optInt k v ++ rest)) = v := by
  cases v <;> simp [optInt, lookupKey, asInt, h]

theorem nodeOfJson_nodeToJson (n : CanvasNode) : nodeOfJson (nodeToJson n) = some n := by
  cases n with
  | mk id type x y width height file text url color label =>
    simp only [nodeToJson, nodeFields, nodeOfJson, List.append_assoc]
    simp [lookupKey_optStr_ne, lookupKey_optInt_ne, asStr_lookup_optStr, asInt_lookup_optInt,
      lookupKey_optStr_last, lookupKey_optInt_last, asStr_lookup_optStr_last, lookupKey]

theorem edgeOfJson_edgeToJson (e : CanvasEdge) : edgeOfJson (edgeToJson e) = some e := by
  cases e with
  | mk id fromNode toNode fromSide toSide color label =>
    simp only [edgeToJson, edgeFields, edgeOfJson, List.append_assoc]
    simp [lookupKey_optStr_ne, asStr_lookup_optStr, lookupKey_optStr_last,
      asStr_lookup_optStr_last, lookupKey]

theorem mapDecode_map {α : Type} (f : JVal → Option α) (g : α → JVal)
    (h : ∀ a, f (g a) = some a) : ∀ l : List α, mapDecode f (l.map g) = some l
  | [] => rfl
  | a :: l => by simp [mapDecode, h a, mapDecode_map f g h l]

theorem docOfJson_canvas_data (nodes : List CanvasNode) (edges : List CanvasEdge) :
    docOfJson (canvas_data nodes edges) = some (nodes, edges) := by
  simp [canvas_data, docOfJson, mapDecode_map nodeOfJson nodeToJson nodeOfJson_nodeToJson,
    mapDecode_map edgeOfJson edgeToJson edgeOfJson_edgeToJson]

/-! ## Path normalization -/

theorem pyEndsWith_iff (s t : String) :
    pyEndsWith s t = true ↔ ∃ pre : String, s = pre ++ t := by
  constructor
  · intro h
    have h' : s.data.drop (s.data.length - t.data.length) = t.data := by
      simpa [pyEndsWith] using h
    refine ⟨String.mk (s.data.take (s.data.length - t.data.length)), String.ext ?_⟩
    rw [String.data_append]
    calc s.data = s.data.take (s.data.length - t.data.length) ++
          s.data.drop (s.data.length - t.data.length) := (List.take_append_drop _ _).symm
      _ = (String.mk (s.data.take (s.data.length - t.data.length))).data ++ t.data := by
          rw [h']
  · rintro ⟨pre, rfl⟩
    have hdrop : (pre ++ t).data.drop ((pre ++ t).data.length - t.data.length) = t.data := by
      rw [String.data_append]
      exact List.drop_left' (by simp)
    simp [pyEndsWith, hdrop]

/-! ## Behaviour of one invocation -/

theorem pyJoin_two (sep a b : String) : pyJoin sep [a, b] = a ++ sep ++ b := rfl

theorem summary_flatten (act fp : String) :
    "# " ++ act ++ ": " ++ fp ++ "\n" ++ "\nThe canvas is ready to open in Obsidian." =
      "# " ++ act ++ ": " ++ fp ++ "\n\nThe canvas is ready to open in Obsidian." := by
  rw [String.append_assoc ("# " ++ act ++ ": " ++ fp)]
  rfl

theorem canvas_resolve_none (nodes : List CanvasNode) (edges : List CanvasEdge)
    (title folder : String) (project : Option String) (env : Env)
    (h : env.resolve project = none) :
    canvas nodes edges title folder project env =
      (Except.error CanvasError.projectResolution, []) := by
  simp [canvas, get_active_project, h]

theorem canvas_ok_shape (nodes : List CanvasNode) (edges : List CanvasEdge)
    (title folder : String) (project : Option String) (env : Env) (s : String)
    (h : (canvas nodes edges title folder project env).1 = Except.ok s) :
    (200 ≤ env.status_code ∧ env.status_code < 300) ∧
      s = "# " ++ (if env.status_code = 201 then "Created" else "Updated") ++ ": " ++
        file_path folder title ++ "\n\nThe canvas is ready to open in Obsidian." := by
  unfold canvas get_active_project call_put response_json at h
  cases hres : env.resolve project with
  | none => rw [hres] at h; simp at h
  | some p =>
    rw [hres] at h
    by_cases htr : env.transportOk = false
    · simp [htr] at h
    · by_cases hst : 200 ≤ env.status_code ∧ env.status_code < 300
      · cases hjs : jsonLoads env.body with
        | none => simp [htr, hst, hjs] at h
        | some j =>
          simp [htr, hst, hjs, pyJoin] at h
          refine ⟨hst, ?_⟩
          rw [← h, ← summary_flatten]
      · simp [htr, hst] at h

theorem canvas_ok_of (nodes : List CanvasNode) (edges : List CanvasEdge)
    (title folder : String) (project : Option String) (env : Env) (p : ActiveProject)
    (j : JVal) (h1 : env.resolve project = some p) (h2 : env.transportOk = true)
    (h3 : 200 ≤ env.status_code) (h4 : env.status_code < 300)
    (h5 : jsonLoads env.body = some j) :
    (canvas nodes edges title folder project env).1 =
      Except.ok ("# " ++ (if env.status_code = 201 then "Created" else "Updated") ++ ": " ++
        file_path folder title ++ "\n\nThe canvas is ready to open in Obsidian.") := by
  have htr : ¬env.transportOk = false := by simp [h2]
  unfold canvas get_active_project call_put response_json
  rw [h1]
  simp [htr, h3, h4, h5, pyJoin, ← summary_flatten]

theorem canvas_putBodies (nodes : List CanvasNode) (edges : List CanvasEdge)
    (title folder : String) (project : Option String) (env : Env) (p : ActiveProject)
    (h : env.resolve project = some p) :
    putBodies (canvas nodes edges title folder project env).2 =
      [serStringPayload (canvas_json nodes edges)] := by
  unfold canvas get_active_project call_put response_json
  rw [h]
  by_cases htr : env.transportOk = false
  · simp [htr, putBodies]
  · by_cases hst : 200 ≤ env.status_code ∧ env.status_code < 300
    · cases hjs : jsonLoads env.body with
      | none => simp [htr, hst, hjs, putBodies]
      | some j => simp [htr, hst, hjs, putBodies]
    · simp [htr, hst, putBodies]

theorem canvas_putCount (nodes : List CanvasNode) (edges : List CanvasEdge)
    (title folder : String) (project : Option String) (env : Env) :
    putCount (canvas nodes edges title folder project env).2 =
      if (env.resolve project).isSome then 1 else 0 := by
  cases hres : env.resolve project with
  | none => simp [canvas_resolve_none nodes edges title folder project env hres, putCount]
  | some p =>
    unfold canvas get_active_project call_put response_json
    rw [hres]
    by_cases htr : env.transportOk = false
    · simp [htr, putCount]
    · by_cases hst : 200 ≤ env.status_code ∧ env.status_code < 300
      · cases hjs : jsonLoads env.body with
        | none => simp [htr, hst, hjs, putCount]
        | some j => simp [htr, hst, hjs, putCount]
      · simp [htr, hst, putCount]

/-! ## The claims -/

/-- C1: every successful invocation returns exactly
`"# " ++ action ++ ": " ++ destination_path ++ "\n\nThe canvas is ready to
open in Obsidian."`, where the action is `"Created"` exactly when the
response status code is 201 and `"Updated"` for every other success
status; only success statuses reach the summary. -/
theorem canvas_success_summary (nodes : List CanvasNode) (edges : List CanvasEdge)
    (title folder : String) (project : Option String) (env : Env) (s : String)
    (h : (canvas nodes edges title folder project env).1 = Except.ok s) :
    s = "# " ++ (if env.status_code = 201 then "Created" else "Updated") ++ ": " ++
        file_path folder title ++ "\n\nThe canvas is ready to open in Obsidian." ∧
      ((if env.status_code = 201 then "Created" else "Updated") = "Created" ↔
        env.status_code = 201) ∧
      200 ≤ env.status_code ∧ env.status_code < 300 := by
  obtain ⟨⟨hlo, hhi⟩, hs⟩ := canvas_ok_shape nodes edges title folder project env s h
  refine ⟨hs, ?_, hlo, hhi⟩
  by_cases h201 : env.status_code = 201 <;> simp [h201]

/-- C1 witness: a concrete successful run with status 201 produces the
`Created` summary for `diagrams/Map.canvas`. -/
theorem canvas_success_summary_witness :
    ("# Created: diagrams/Map.canvas\n\nThe canvas is ready to open in Obsidian." =
      "# " ++ (if sampleEnv201.status_code = 201 then "Created" else "Updated") ++ ": " ++
        file_path "diagrams" "Map" ++ "\n\nThe canvas is ready to open in Obsidian.") ∧
      ((if sampleEnv201.status_code = 201 then "Created" else "Updated") = "Created" ↔
        sampleEnv201.status_code = 201) ∧
      200 ≤ sampleEnv201.status_code ∧ sampleEnv201.status_code < 300 :=
  canvas_success_summary [] [] "Map" "diagrams" none sampleEnv201
    "# Created: diagrams/Map.canvas\n\nThe canvas is ready to open in Obsidian." rfl

/-- C2 counterexample: a response with success status 200 whose body is
not a JSON document makes `create` fail (the adapter calls
`response.json()` unconditionally), so the body's content does affect
whether `create` succeeds. -/
theorem canvas_body_dependence_cx :
    200 ≤ sampleEnvBadBody.status_code ∧ sampleEnvBadBody.status_code < 300 ∧
      sampleEnvBadBody.transportOk = true ∧
      (canvas [] [] "Map" "diagrams" none sampleEnvBadBody).1 =
        Except.error CanvasError.jsonDecode :=
  ⟨by decide, by decide, rfl, rfl⟩

/-- C2 (amended): the response body affects `create` only through whether
it parses as JSON; between any two worlds that agree on project
resolution, transport and status code and whose bodies both parse, the
result of `create` is identical. -/
theorem canvas_body_independence (nodes : List CanvasNode) (edges : List CanvasEdge)
    (title folder : String) (project : Option String) (env1 env2 : Env) (j1 j2 : JVal)
    (hres : env1.resolve project = env2.resolve project)
    (htr : env1.transportOk = env2.transportOk)
    (hst : env1.status_code = env2.status_code)
    (h1 : jsonLoads env1.body = some j1) (h2 : jsonLoads env2.body = some j2) :
    (canvas nodes edges title folder project env1).1 =
      (canvas nodes edges title folder project env2).1 := by
  cases hres1 : env1.resolve project with
  | none =>
    have hres2 : env2.resolve project = none := by rw [← hres]; exact hres1
    rw [canvas_resolve_none nodes edges title folder project env1 hres1,
      canvas_resolve_none nodes edges title folder project env2 hres2]
  | some p =>
    have hres2 : env2.resolve project = some p := by rw [← hres]; exact hres1
    cases htr1 : env1.transportOk with
    | false =>
      have htr2 : env2.transportOk = false := by rw [← htr]; exact htr1
      unfold canvas get_active_project call_put response_json
      simp [hres1, hres2, htr1, htr2]
    | true =>
      have htr2 : env2.transportOk = true := by rw [← htr]; exact htr1
      by_cases hok : 200 ≤ env1.status_code ∧ env1.status_code < 300
      · rw [canvas_ok_of nodes edges title folder project env1 p j1 hres1 htr1 hok.1 hok.2 h1,
          canvas_ok_of nodes edges title folder project env2 p j2 hres2 htr2
            (by rw [← hst]; exact hok.1) (by rw [← hst]; exact hok.2) h2, hst]
      · have hok2 : ¬(200 ≤ env2.status_code ∧ env2.status_code < 300) := by
          rw [← hst]; exact hok
        unfold canvas get_active_project call_put response_json
        simp [hres1, hres2, htr1, htr2, hok, hok2, hst]

/-- C2 witness: two concrete worlds with status 201 whose bodies are the
different JSON documents `\x7b\x7d` and `[]` give identical results. -/
theorem canvas_body_independence_witness :
    (canvas [] [] "Map" "diagrams" none sampleEnv201).1 =
      (canvas [] [] "Map" "diagrams" none sampleEnv201ArrBody).1 :=
  canvas_body_independence [] [] "Map" "diagrams" none sampleEnv201 sampleEnv201ArrBody
    (JVal.obj []) (JVal.arr []) rfl rfl rfl rfl rfl

/-- C3: whenever the project resolves, exactly one wire body is submitted,
and it is the canvas document serialized twice: the wire body parses as a
JSON string literal whose content is the canvas JSON text (which itself
parses as the canvas document), not as the raw canvas object. -/
theorem canvas_put_payload (nodes : List CanvasNode) (edges : List CanvasEdge)
    (title folder : String) (project : Option String) (env : Env) (p : ActiveProject)
    (h : env.resolve project = some p) :
    ∃ w, putBodies (canvas nodes edges title folder project env).2 = [w] ∧
      jsonLoads w = some (JVal.str (canvas_json nodes edges)) ∧
      jsonLoads (canvas_json nodes edges) = some (canvas_data nodes edges) ∧
      JVal.str (canvas_json nodes edges) ≠ canvas_data nodes edges :=
  ⟨serStringPayload (canvas_json nodes edges),
    canvas_putBodies nodes edges title folder project env p h,
    jsonLoads_serStringPayload _, jsonLoads_jsonDumps2 _, by simp [canvas_data]⟩

/-- C3 witness: the double encoding on a concrete run. -/
theorem canvas_put_payload_witness :
    ∃ w, putBodies (canvas [] [] "Map" "diagrams" none sampleEnv201).2 = [w] ∧
      jsonLoads w = some (JVal.str (canvas_json [] [])) ∧
      jsonLoads (canvas_json [] []) = some (canvas_data [] []) ∧
      JVal.str (canvas_json [] []) ≠ canvas_data [] [] :=
  canvas_put_payload [] [] "Map" "diagrams" none sampleEnv201 sampleProject rfl

/-- C4: a title that ends in `.canvas` (that is, equals some prefix
followed by `.canvas`) is kept unchanged, and any other title gets
`.canvas` appended. -/
theorem file_title_normalization (title : String) :
    ((∃ pre : String, title = pre ++ ".canvas") → file_title title = title) ∧
      ((¬∃ pre : String, title = pre ++ ".canvas") →
        file_title title = title ++ ".canvas") := by
  constructor
  · intro hex
    simp [file_title, (pyEndsWith_iff title ".canvas").mpr hex]
  · intro hnex
    have hne : ¬pyEndsWith title ".canvas" = true := fun hc =>
      hnex ((pyEndsWith_iff title ".canvas").mp hc)
    simp [file_title, hne]

/-- C4 witness: `Map.canvas` is kept as is, `Map` gets the suffix. -/
theorem file_title_normalization_witness :
    file_title "Map.canvas" = "Map.canvas" ∧ file_title "Map" = "Map" ++ ".canvas" := by
  refine ⟨(file_title_normalization "Map.canvas").1 ⟨"Map", rfl⟩,
    (file_title_normalization "Map").2 ?_⟩
  intro hex
  obtain ⟨pre, hpre⟩ := hex
  have hlen : ("Map" : String).length = pre.length + (".canvas" : String).length := by
    rw [hpre, String.length_append]
  have h3 : ("Map" : String).length = 3 := rfl
  have h7 : ((".canvas" : String)).length = 7 := rfl
  omega

/-- C5: the destination path is the plain concatenation
`folder ++ "/" ++ normalized title`: at the character level it is the
folder's characters, one `/`, then the title's characters, with no slash
collapsing (a folder ending in `/` yields `//`) and an empty folder
yields a path beginning with `/`. -/
theorem file_path_join (folder title : String) :
    file_path folder title = folder ++ "/" ++ file_title title ∧
      (file_path folder title).data = folder.data ++ '/' :: (file_title title).data ∧
      (file_path "" title).data.head? = some '/' ∧
      file_path "a/" "b" = "a//b.canvas" := by
  have hslash : ("/" : String).data = ['/'] := rfl
  have hnil : ("" : String).data = [] := rfl
  refine ⟨rfl, ?_, ?_, by rfl⟩
  · simp [file_path, String.data_append, hslash]
  · simp [file_path, String.data_append, hslash, hnil]

/-- C6: the serialized canvas body is the JSON text of an object with
exactly the two keys `nodes` and `edges` holding the supplied nodes and
edges in order (parsing the text back returns precisely that object and
nothing else), pretty-printed with 2-space indentation, as the concrete
empty document shows. -/
theorem canvas_json_shape (nodes : List CanvasNode) (edges : List CanvasEdge) :
    jsonLoads (canvas_json nodes edges) =
        some (JVal.obj [("nodes", JVal.arr (nodes.map nodeToJson)),
          ("edges", JVal.arr (edges.map edgeToJson))]) ∧
      canvas_json [] [] = "\x7b\n  \"nodes\": [],\n  \"edges\": []\n\x7d" ∧
      canvas_json [{ id := some "n1", x := some (-5) }] [] =
        "\x7b\n  \"nodes\": [\n    \x7b\n      \"id\": \"n1\",\n      \"x\": -5\n    \x7d\n  ],\n  \"edges\": []\n\x7d" :=
  ⟨jsonLoads_jsonDumps2 (canvas_data nodes edges), rfl, rfl⟩

/-- C7: serializing the canvas document built from any nodes and edges
and parsing the text back yields exactly the original nodes and edges
(order and values preserved, absent optional fields still absent). -/
theorem canvas_json_round_trip (nodes : List CanvasNode) (edges : List CanvasEdge) :
    (jsonLoads (canvas_json nodes edges)).bind docOfJson = some (nodes, edges) := by
  rw [show canvas_json nodes edges = jsonDumps2 (canvas_data nodes edges) from rfl,
    jsonLoads_jsonDumps2]
  simpa using docOfJson_canvas_data nodes edges

/-- C8: when project resolution fails, `create` fails with the project
resolution error and its effect trace is empty — in particular no remote
write was issued. -/
theorem canvas_project_failure (nodes : List CanvasNode) (edges : List CanvasEdge)
    (title folder : String) (project : Option String) (env : Env)
    (h : env.resolve project = none) :
    (canvas nodes edges title folder project env).1 =
        Except.error CanvasError.projectResolution ∧
      (canvas nodes edges title folder project env).2 = [] ∧
      putCount (canvas nodes edges title folder project env).2 = 0 := by
  rw [canvas_resolve_none nodes edges title folder project env h]
  exact ⟨rfl, rfl, rfl⟩

/-- C8 witness: a concrete run against a world with no resolvable
project. -/
theorem canvas_project_failure_witness :
    (canvas [] [] "Map" "diagrams" none sampleEnvNoProject).1 =
        Except.error CanvasError.projectResolution ∧
      (canvas [] [] "Map" "diagrams" none sampleEnvNoProject).2 = [] ∧
      putCount (canvas [] [] "Map" "diagrams" none sampleEnvNoProject).2 = 0 :=
  canvas_project_failure [] [] "Map" "diagrams" none sampleEnvNoProject rfl

/-- C9: on every path at most one remote write is issued, and exactly one
is issued precisely when project resolution succeeds. -/
theorem canvas_exactly_one_put (nodes : List CanvasNode) (edges : List CanvasEdge)
    (title folder : String) (project : Option String) (env : Env) :
    putCount (canvas nodes edges title folder project env).2 ≤ 1 ∧
      putCount (canvas nodes edges title folder project env).2 =
        (if (env.resolve project).isSome then 1 else 0) := by
  have h := canvas_putCount nodes edges title folder project env
  refine ⟨?_, h⟩
  rw [h]
  split <;> omega

/-- C10: two successful invocations that share the title, folder, project
resolution result and response status code return the same summary string
even with entirely different nodes and edges. -/
theorem canvas_result_independent_of_content (nodes1 : List CanvasNode)
    (edges1 : List CanvasEdge) (nodes2 : List CanvasNode) (edges2 : List CanvasEdge)
    (title folder : String) (project : Option String) (env1 env2 : Env) (s1 s2 : String)
    (_hres : env1.resolve project = env2.resolve project)
    (hst : env1.status_code = env2.status_code)
    (h1 : (canvas nodes1 edges1 title folder project env1).1 = Except.ok s1)
    (h2 : (canvas nodes2 edges2 title folder project env2).1 = Except.ok s2) :
    s1 = s2 := by
  obtain ⟨_, hs1⟩ := canvas_ok_shape nodes1 edges1 title folder project env1 s1 h1
  obtain ⟨_, hs2⟩ := canvas_ok_shape nodes2 edges2 title folder project env2 s2 h2
  rw [hs1, hs2, hst]

/-- C10 witness: an empty canvas and a one-node canvas produce the same
summary in the same concrete world. -/
theorem canvas_result_independent_of_content_witness :
    ("# Created: diagrams/Map.canvas\n\nThe canvas is ready to open in Obsidian." :
      String) =
      "# Created: diagrams/Map.canvas\n\nThe canvas is ready to open in Obsidian." :=
  canvas_result_independent_of_content [] []
    [{ id := some "n1", type := some "text", x := some 0, y := some (-5),
       width := some 400, height := some 300, text := some "hi" }]
    [{ id := some "e1", fromNode := some "n1", toNode := some "n1" }]
    "Map" "diagrams" none sampleEnv201 sampleEnv201 _ _ rfl rfl rfl rfl

end BasicMemory
